import Mathlib

/-!
Shallow embedding of the crypto_dashboard repository (src/app.py and
src/cosmos_client.py) and proofs about its specification claims.

Conventions of the embedding:
* Python dict lookups `d.get(k, default)` on optional fields become
  `Option` fields with `Option.getD`.
* Python floats become `ℚ` (the claims are about exact guards and algebra).
* Fallible SDK calls (Cosmos reads/writes, HTTP requests) become an
  `Except String α` argument describing the outcome of the external call;
  the `try/except` block becomes a `match` on it.
* Python strings manipulated character-wise (`str.strip`, `str.split`)
  become `List Char`; strings only compared for equality stay `String`.
-/

namespace CryptoDashboard

/-! ## Python string primitives used by app.py -/

/-- Characters treated as whitespace by Python's `str.strip()`. -/
def pySpace (c : Char) : Bool :=
  c == ' ' || c == '\t' || c == '\n' || c == '\r' || c == '\x0b' || c == '\x0c'

/-- Python `str.strip()`: drop leading and trailing whitespace. -/
def pyStrip (l : List Char) : List Char :=
  ((l.dropWhile pySpace).reverse.dropWhile pySpace).reverse

/-- Python `str.split(",")`: split on every comma, keeping empty pieces
(`"".split(",") == [""]`). -/
def splitOnComma : List Char → List (List Char)
  | [] => [[]]
  | c :: cs =>
    if c = ',' then [] :: splitOnComma cs
    else
      match splitOnComma cs with
      | [] => [[c]]
      | r :: rs => (c :: r) :: rs

/-- Python `", ".join(l)`. -/
def joinCommaSpace : List (List Char) → List Char
  | [] => []
  | [x] => x
  | x :: y :: xs => x ++ ',' :: ' ' :: joinCommaSpace (y :: xs)

/-- Python truthiness of an optional string (`not s` is true for `None`
and for the empty string). -/
def strFalsy (o : Option String) : Bool := o.getD "" == ""

/-! ## Data model (documents read from the store, §3 of the spec) -/

/-- One holding inside the portfolio document: the code reads
`quantity`, `entry_price`, `current_price` and `url` with `.get`. -/
structure Holding where
  quantity : Option ℚ
  entry_price : Option ℚ
  current_price : Option ℚ
  url : Option String
  deriving DecidableEq

/-- The portfolio document: cash balance and coin-symbol → holding map
(modelled as an association list; app.py iterates `.items()`). -/
structure Portfolio where
  balance_usd : Option ℚ
  holdings : List (String × Holding)
  deriving DecidableEq

/-- One equity-log document; app.py reads `timestamp` and `total_value`
with `.get`. -/
structure EquityLog where
  timestamp : Option String
  total_value : Option ℚ
  deriving DecidableEq

/-- One trade document (displayed verbatim in the trades table). -/
structure Trade where
  timestamp : String
  coin : String
  action : String
  price : ℚ
  quantity : ℚ
  reason : String
  deriving DecidableEq

/-- One watchlist document (the columns app.py displays and filters on). -/
structure WatchlistEntry where
  coin : String
  priceUsd : Option ℚ
  liquidityUsd : Option ℚ
  volume24h : Option ℚ
  priceChange1h : Option ℚ
  status : String
  addedAt : Option String
  deriving DecidableEq

/-- A value stored in the settings document. -/
inductive SettingsVal where
  | num (q : ℚ)
  | str (s : List Char)
  | strList (l : List (List Char))
  deriving DecidableEq

/-- The schema-less settings document: a partial map from field name to
value (Python dict). -/
abbrev SettingsDoc := String → Option SettingsVal

/-- Python dict assignment `d[k] = v`. -/
def setKey (d : SettingsDoc) (k : String) (v : SettingsVal) : SettingsDoc :=
  fun q => if q = k then some v else d q

/-! ## cosmos_client.py -/

/-- Environment variables visible to `os.getenv` in
`CosmosDBClient.__init__` (cosmos_client.py lines 11-13);
`none` means the variable is unset. -/
structure EnvVars where
  cosmos_db_url : Option String
  cosmos_db_key : Option String
  cosmos_db_name : Option String

/-- The Streamlit secrets store (`st.secrets`), a key→value map. -/
structure Secrets where
  entries : List (String × String)

/-- Python `k in st.secrets`. -/
def Secrets.holds (s : Secrets) (k : String) : Bool :=
  s.entries.any (fun p => p.1 == k)

/-- Python `st.secrets[k]` (as an `Option`; the code only indexes after
an `in` check). -/
def Secrets.get (s : Secrets) (k : String) : Option String :=
  (s.entries.find? (fun p => p.1 == k)).map Prod.snd

/-- The credentials held by the client after `__init__` finishes its
resolution steps. -/
structure Credentials where
  url : Option String
  key : Option String
  db_name : String
  deriving DecidableEq

/-- Credential resolution in `CosmosDBClient.__init__`
(cosmos_client.py lines 9-21): first `os.getenv`, then fall back to
`st.secrets` only when the environment value is falsy (for the URL and
key) or still the default (for the database name). -/
def resolveCredentials (env : EnvVars) (secrets : Secrets) : Credentials :=
  let url0 := env.cosmos_db_url
  let key0 := env.cosmos_db_key
  let db0 := env.cosmos_db_name.getD "tradingdb"
  let url1 := if strFalsy url0 && secrets.holds "COSMOS_DB_URL"
              then secrets.get "COSMOS_DB_URL" else url0
  let key1 := if strFalsy key0 && secrets.holds "COSMOS_DB_KEY"
              then secrets.get "COSMOS_DB_KEY" else key0
  let db1 := if db0 == "tradingdb" && secrets.holds "COSMOS_DB_NAME"
             then (secrets.get "COSMOS_DB_NAME").getD db0 else db0
  { url := url1, key := key1, db_name := db1 }

/-- The startup guard (cosmos_client.py lines 23-25): `st.stop()` when
either resolved credential is falsy, modelled as `none`. -/
def initClient (env : EnvVars) (secrets : Secrets) : Option Credentials :=
  let c := resolveCredentials env secrets
  if strFalsy c.url || strFalsy c.key then none else some c

/-- `CosmosDBClient.get_settings` (cosmos_client.py lines 36-41): the
`try` body is the store read, whose outcome is the argument; the
`except` arm returns `None` after displaying the error. -/
def get_settings (r : Except String SettingsDoc) : Option SettingsDoc :=
  match r with
  | .ok d => some d
  | .error _ => none

/-- `CosmosDBClient.update_settings` (cosmos_client.py lines 43-49):
`True` when `replace_item` succeeds, `False` when it raises. -/
def update_settings (r : Except String Unit) : Bool :=
  match r with
  | .ok _ => true
  | .error _ => false

/-- `CosmosDBClient.get_portfolio` (cosmos_client.py lines 51-56). -/
def get_portfolio (r : Except String Portfolio) : Option Portfolio :=
  match r with
  | .ok p => some p
  | .error _ => none

/-- `CosmosDBClient.get_equity_logs` (cosmos_client.py lines 58-65): a
year-filtered, timestamp-descending query; empty list when it raises. -/
def get_equity_logs (_year : String) (r : Except String (List EquityLog)) :
    List EquityLog :=
  match r with
  | .ok items => items
  | .error _ => []

/-- `CosmosDBClient.get_recent_trades` (cosmos_client.py lines 67-74):
top-`limit`, timestamp-descending query; empty list when it raises. -/
def get_recent_trades (_limit : Nat) (r : Except String (List Trade)) :
    List Trade :=
  match r with
  | .ok items => items
  | .error _ => []

/-! ## app.py: top metrics -/

/-- The holdings-value accumulation loop (app.py lines 102-106). -/
def total_holdings_val (p : Portfolio) : ℚ :=
  p.holdings.foldl
    (fun acc kv =>
      let h := kv.2
      let qty := h.quantity.getD 0
      let curr_price := h.current_price.getD (h.entry_price.getD 0)
      acc + qty * curr_price)
    0

/-- `total_val` (app.py line 108): holdings value plus cash balance. -/
def total_val (p : Portfolio) : ℚ :=
  total_holdings_val p + p.balance_usd.getD 0

/-- The `last_run` computation (app.py lines 91-96): `"Unknown"` unless
equity logs exist and the newest one carries a truthy timestamp, which
is then formatted (`fmt` stands for the strftime rendering). -/
def last_run (fmt : String → String) (equity_logs : List EquityLog) : String :=
  match equity_logs with
  | [] => "Unknown"
  | latest :: _ =>
    match latest.timestamp with
    | none => "Unknown"
    | some ts => if ts == "" then "Unknown" else fmt ts

/-- The Period PnL metric (app.py lines 114-119): `none` when the metric
is not rendered (fewer than two equity logs), otherwise the `(pnl,
pnl_pct)` pair, computed against `equity_logs[-1]`. -/
def period_pnl (total_value : ℚ) (equity_logs : List EquityLog) :
    Option (ℚ × ℚ) :=
  if 1 < equity_logs.length then
    match equity_logs.getLast? with
    | none => none
    | some lastLog =>
      let start_val := lastLog.total_value.getD total_value
      let pnl := total_value - start_val
      let pnl_pct := if start_val ≠ 0 then pnl / start_val * 100 else 0
      some (pnl, pnl_pct)
  else none

/-! ## app.py: holdings table -/

/-- One row of the holdings table. -/
structure HoldingRow where
  coin : String
  quantity : ℚ
  avg_entry : ℚ
  current_price : ℚ
  value_usd : ℚ
  pnl_usd : ℚ
  pnl_pct : ℚ
  url : String
  deriving DecidableEq

/-- Row construction for one holding (app.py lines 149-166). -/
def holdingRow (coin : String) (data : Holding) : HoldingRow :=
  let qty := data.quantity.getD 0
  let entry := data.entry_price.getD 0
  let curr := data.current_price.getD entry
  let val := qty * curr
  let pnl_usd := if 0 < entry then (curr - entry) * qty else 0
  let pnl_pct := if 0 < entry then (curr / entry - 1) * 100 else 0
  { coin := coin, quantity := qty, avg_entry := entry, current_price := curr,
    value_usd := val, pnl_usd := pnl_usd, pnl_pct := pnl_pct,
    url := data.url.getD "" }

/-- The holdings table before sorting (app.py loop at lines 149-166). -/
def holdings_rows (p : Portfolio) : List HoldingRow :=
  p.holdings.map (fun kv => holdingRow kv.1 kv.2)

/-! ## app.py: watchlist and force buy -/

/-- pandas `Series.unique()` on the coin column: keep the first
occurrence of each value, preserving order. `seen` accumulates the
values already emitted. -/
def uniqueAux (seen : List String) : List String → List String
  | [] => []
  | x :: xs => if x ∈ seen then uniqueAux seen xs else x :: uniqueAux (x :: seen) xs

/-- `df_watch[df_watch['status'] != 'bought']['coin'].unique().tolist()`
(app.py line 212). -/
def pending_coins (watchlist : List WatchlistEntry) : List String :=
  uniqueAux []
    ((watchlist.filter (fun e => e.status != "bought")).map (fun e => e.coin))

/-- The HTTP response seen by the force-buy handler: a status code, the
body text, and the outcome of `resp.json().get('message')` —
`Except.error` when `.json()` raises, otherwise the optional `message`
field. -/
structure HttpResponse where
  status_code : Nat
  text : String
  json_message : Except String (Option String)

/-- What the force-buy click handler did: messages rendered and whether
`st.rerun()` was requested. -/
structure ForceBuyResult where
  success_msg : Option String
  error_msg : Option String
  rerun : Bool
  deriving DecidableEq

/-- Python's f-string rendering of an optional value (`None` prints as
"None"). -/
def pyShowOpt : Option String → String
  | none => "None"
  | some s => s

/-- The force-buy click handler (app.py lines 221-230): on a 200
response with a parseable body, show success and request a rerun; on a
non-200 status show `resp.text` inline; on a transport error or a
`.json()` failure the `except` arm shows the exception inline. The
handler is total: no outcome propagates. -/
def force_buy (resp : Except String HttpResponse) : ForceBuyResult :=
  match resp with
  | .error e =>
    { success_msg := none
      error_msg := some ("Failed to call ForceBuy API: " ++ e
        ++ "\nEnsure Function App is running locally.")
      rerun := false }
  | .ok r =>
    if r.status_code = 200 then
      match r.json_message with
      | .ok m =>
        { success_msg := some ("Success: " ++ pyShowOpt m)
          error_msg := none
          rerun := true }
      | .error e =>
        { success_msg := none
          error_msg := some ("Failed to call ForceBuy API: " ++ e
            ++ "\nEnsure Function App is running locally.")
          rerun := false }
    else
      { success_msg := none
        error_msg := some ("Error: " ++ r.text)
        rerun := false }

/-! ## app.py: settings form submit -/

/-- `new_coins` (app.py line 70): split the text-area value on commas,
strip each piece, drop the pieces that strip to nothing. -/
def new_coins (coins_str : List Char) : List (List Char) :=
  ((splitOnComma coins_str).map pyStrip).filter (fun t => t ≠ [])

/-- The settings-form submit handler (app.py lines 69-77): assign the
five edited keys on the fetched document and hand it to
`update_settings`. -/
def submit_settings (settings : SettingsDoc) (tp sl amount : ℚ)
    (coins_str prompt_template : List Char) : SettingsDoc :=
  setKey (setKey (setKey (setKey (setKey settings
    "TAKE_PROFIT" (.num tp))
    "STOP_LOSS" (.num sl))
    "ORDER_AMOUNT" (.num amount))
    "COINS_TO_TRACK" (.strList (new_coins coins_str)))
    "PROMPT_TEMPLATE" (.str prompt_template)

/-! ## Supporting lemmas -/

theorem foldl_add_map {α : Type} (f : α → ℚ) :
    ∀ (l : List α) (acc : ℚ),
      l.foldl (fun a x => a + f x) acc = acc + (l.map f).sum := by
  intro l
  induction l with
  | nil => intro acc; simp
  | cons x xs ih =>
    intro acc
    simp only [List.foldl_cons, List.map_cons, List.sum_cons]
    rw [ih]
    ring

/-- The per-holding value the specification describes: quantity times
the current price when present, otherwise quantity times the entry
price. -/
def specHoldingValue (h : Holding) : ℚ :=
  match h.current_price with
  | some c => h.quantity.getD 0 * c
  | none => h.quantity.getD 0 * h.entry_price.getD 0

theorem holdingRow_value (coin : String) (h : Holding) :
    (holdingRow coin h).value_usd = specHoldingValue h := by
  cases hc : h.current_price <;>
    simp [holdingRow, specHoldingValue, hc]

/-! ## Claim theorems -/

/-- C1: for every portfolio document, each holding's displayed value
equals quantity times current price when a current price is present,
otherwise quantity times entry price; and the total portfolio value
metric equals the cash balance plus the sum of these holding values. -/
theorem holdings_value_and_total (p : Portfolio) :
    (holdings_rows p).map (fun r => r.value_usd)
      = p.holdings.map (fun kv => specHoldingValue kv.2)
    ∧ total_val p
      = p.balance_usd.getD 0
        + ((holdings_rows p).map (fun r => r.value_usd)).sum := by
  constructor
  · simp only [holdings_rows, List.map_map]
    refine List.map_congr_left ?_
    intro kv _
    exact holdingRow_value kv.1 kv.2
  · have hfold : total_holdings_val p
        = (p.holdings.map (fun kv =>
            kv.2.quantity.getD 0
              * kv.2.current_price.getD (kv.2.entry_price.getD 0))).sum := by
      have := foldl_add_map
        (fun kv : String × Holding =>
          kv.2.quantity.getD 0
            * kv.2.current_price.getD (kv.2.entry_price.getD 0))
        p.holdings 0
      simpa [total_holdings_val] using this
    have hrow : (holdings_rows p).map (fun r => r.value_usd)
        = p.holdings.map (fun kv =>
            kv.2.quantity.getD 0
              * kv.2.current_price.getD (kv.2.entry_price.getD 0)) := by
      simp only [holdings_rows, List.map_map]
      refine List.map_congr_left ?_
      intro kv _
      cases hc : kv.2.current_price <;> simp [holdingRow, hc]
    rw [total_val, hfold, hrow]
    ring

/-- C4: every holding whose recorded entry price is 0 shows absolute
P&L ($) of exactly 0 and percentage P&L (%) of exactly 0. -/
theorem zero_entry_price_zero_pnl (coin : String) (data : Holding)
    (h : data.entry_price = some 0) :
    (holdingRow coin data).pnl_usd = 0 ∧ (holdingRow coin data).pnl_pct = 0 := by
  simp [holdingRow, h]

theorem zero_entry_price_zero_pnl_witness :
    (holdingRow "btc" ⟨some 2, some 0, some 5, none⟩).pnl_usd = 0
      ∧ (holdingRow "btc" ⟨some 2, some 0, some 5, none⟩).pnl_pct = 0 :=
  zero_entry_price_zero_pnl "btc" ⟨some 2, some 0, some 5, none⟩ rfl

/-- C6: every Data Access Layer operation is total over both outcomes of
the underlying store call: on an error `get_settings` and `get_portfolio`
return `none`, `get_equity_logs` and `get_recent_trades` return `[]`,
and `update_settings` returns `false`; on success they return the
fetched payload (`update_settings` returns `true`). No outcome escapes
as an exception: each function is defined on all of `Except`. -/
theorem dal_swallows_errors :
    (∀ e : String, get_settings (.error e) = none)
    ∧ (∀ d : SettingsDoc, get_settings (.ok d) = some d)
    ∧ (∀ e : String, get_portfolio (.error e) = none)
    ∧ (∀ p : Portfolio, get_portfolio (.ok p) = some p)
    ∧ (∀ (y e : String), get_equity_logs y (.error e) = [])
    ∧ (∀ (y : String) (ls : List EquityLog), get_equity_logs y (.ok ls) = ls)
    ∧ (∀ (n : Nat) (e : String), get_recent_trades n (.error e) = [])
    ∧ (∀ (n : Nat) (ts : List Trade), get_recent_trades n (.ok ts) = ts)
    ∧ (∀ e : String, update_settings (.error e) = false)
    ∧ update_settings (.ok ()) = true := by
  refine ⟨fun _ => rfl, fun _ => rfl, fun _ => rfl, fun _ => rfl,
    fun _ _ => rfl, fun _ _ => rfl, fun _ _ => rfl, fun _ _ => rfl,
    fun _ => rfl, rfl⟩

theorem mem_uniqueAux (x : String) :
    ∀ (l seen : List String), x ∈ uniqueAux seen l ↔ (x ∈ l ∧ x ∉ seen) := by
  intro l
  induction l with
  | nil => intro seen; simp [uniqueAux]
  | cons a as ih =>
    intro seen
    by_cases ha : a ∈ seen
    · simp only [uniqueAux, if_pos ha, ih, List.mem_cons]
      constructor
      · rintro ⟨hx, hn⟩; exact ⟨Or.inr hx, hn⟩
      · rintro ⟨hx | hx, hn⟩
        · exact absurd (hx ▸ ha) hn
        · exact ⟨hx, hn⟩
    · simp only [uniqueAux, if_neg ha, List.mem_cons, ih]
      constructor
      · rintro (h | ⟨hx, hn⟩)
        · exact ⟨Or.inl h, h ▸ ha⟩
        · refine ⟨Or.inr hx, fun hs => hn (Or.inr hs)⟩
      · rintro ⟨h | h, hn⟩
        · exact Or.inl h
        · by_cases hxa : x = a
          · exact Or.inl hxa
          · exact Or.inr ⟨h, by simp [List.mem_cons, hxa, hn]⟩

theorem nodup_uniqueAux : ∀ (l seen : List String), (uniqueAux seen l).Nodup := by
  intro l
  induction l with
  | nil => intro seen; simp [uniqueAux]
  | cons a as ih =>
    intro seen
    by_cases ha : a ∈ seen
    · simpa [uniqueAux, ha] using ih seen
    · simp only [uniqueAux, if_neg ha]
      refine List.nodup_cons.mpr ⟨?_, ih (a :: seen)⟩
      intro hmem
      rcases (mem_uniqueAux a as (a :: seen)).mp hmem with ⟨_, hns⟩
      exact hns (List.mem_cons_self a seen)

/-! ## Concrete documents used by counterexamples and witnesses -/

def envBoth : EnvVars :=
  { cosmos_db_url := some "https://env.example"
    cosmos_db_key := some "env-key"
    cosmos_db_name := none }

def envNeither : EnvVars :=
  { cosmos_db_url := none, cosmos_db_key := none, cosmos_db_name := none }

def secretsBoth : Secrets :=
  ⟨[("COSMOS_DB_URL", "https://secrets.example"),
    ("COSMOS_DB_KEY", "secrets-key")]⟩

def wlBought : WatchlistEntry :=
  { coin := "DOGE", priceUsd := some (1 / 10), liquidityUsd := some 50000,
    volume24h := some 12000, priceChange1h := some 2, status := "bought",
    addedAt := some "2026-01-01T00:00:00" }

def wlPending : WatchlistEntry :=
  { coin := "PEPE", priceUsd := some (1 / 1000), liquidityUsd := some 30000,
    volume24h := some 8000, priceChange1h := some (-1), status := "pending",
    addedAt := some "2026-01-02T00:00:00" }

def resp500 : HttpResponse :=
  { status_code := 500, text := "Internal Server Error", json_message := .ok none }

def docWithId : SettingsDoc :=
  fun k => if k = "id" then some (.str ("main_settings".toList)) else none

theorem dropWhile_head_false {α : Type} {p : α → Bool} {l : List α} {c : α}
    (h : (l.dropWhile p).head? = some c) : p c = false := by
  have h2 := List.head?_dropWhile_not p l
  rw [h] at h2
  exact h2

theorem dropWhile_eq_self_of_head {α : Type} {p : α → Bool} {l : List α}
    (h : ∀ c, l.head? = some c → p c = false) : l.dropWhile p = l := by
  cases l with
  | nil => rfl
  | cons c cs =>
    rw [List.dropWhile_cons]
    simp [h c rfl]

theorem getLast?_dropWhile {α : Type} {p : α → Bool} :
    ∀ l : List α, l.dropWhile p ≠ [] →
      (l.dropWhile p).getLast? = l.getLast? := by
  intro l
  induction l with
  | nil => intro h; exact absurd rfl h
  | cons c cs ih =>
    intro h
    rw [List.dropWhile_cons] at h ⊢
    by_cases hc : p c
    · simp only [if_pos hc] at h ⊢
      rw [ih h]
      cases cs with
      | nil => exact absurd (by simp) h
      | cons d ds => simp
    · simp only [if_neg hc]

theorem mem_pyStrip {l : List Char} {a : Char} (h : a ∈ pyStrip l) : a ∈ l := by
  rw [pyStrip, List.mem_reverse] at h
  have h1 := (List.dropWhile_sublist pySpace).subset h
  rw [List.mem_reverse] at h1
  exact (List.dropWhile_sublist pySpace).subset h1

theorem pyStrip_last {l : List Char} {c : Char}
    (h : (pyStrip l).getLast? = some c) : pySpace c = false := by
  rw [pyStrip, List.getLast?_reverse] at h
  exact dropWhile_head_false h

theorem pyStrip_head {l : List Char} {c : Char}
    (h : (pyStrip l).head? = some c) : pySpace c = false := by
  rw [pyStrip, List.head?_reverse] at h
  have hne : List.dropWhile pySpace (l.dropWhile pySpace).reverse ≠ [] := by
    intro he
    rw [he] at h
    simp at h
  rw [getLast?_dropWhile _ hne, List.getLast?_reverse] at h
  exact dropWhile_head_false h

theorem pyStrip_noop {l : List Char}
    (hh : ∀ c, l.head? = some c → pySpace c = false)
    (hl : ∀ c, l.getLast? = some c → pySpace c = false) :
    pyStrip l = l := by
  rw [pyStrip, dropWhile_eq_self_of_head hh,
    dropWhile_eq_self_of_head
      (fun c hc => hl c (by rwa [List.head?_reverse] at hc))]
  exact List.reverse_reverse l

theorem pyStrip_idem (l : List Char) : pyStrip (pyStrip l) = pyStrip l :=
  pyStrip_noop (fun _ h => pyStrip_head h) (fun _ h => pyStrip_last h)

theorem pyStrip_space_cons (l : List Char) : pyStrip (' ' :: l) = pyStrip l := by
  rw [pyStrip, pyStrip, List.dropWhile_cons,
    if_pos (by decide : pySpace ' ' = true)]

theorem splitOnComma_ne_nil : ∀ l : List Char, splitOnComma l ≠ [] := by
  intro l
  cases l with
  | nil => simp [splitOnComma]
  | cons c cs =>
    simp only [splitOnComma]
    by_cases hc : c = ','
    · simp [hc]
    · simp only [if_neg hc]
      cases h : splitOnComma cs <;> simp

theorem splitOnComma_no_comma :
    ∀ {l : List Char}, ',' ∉ l → splitOnComma l = [l] := by
  intro l
  induction l with
  | nil => intro _; rfl
  | cons c cs ih =>
    intro h
    have hc : c ≠ ',' := by rintro rfl; exact h (List.mem_cons_self _ _)
    have hcs : ',' ∉ cs := fun m => h (List.mem_cons_of_mem _ m)
    simp only [splitOnComma, if_neg hc]
    rw [ih hcs]

theorem splitOnComma_append :
    ∀ (a b : List Char), ',' ∉ a →
      splitOnComma (a ++ ',' :: b) = a :: splitOnComma b := by
  intro a b
  induction a with
  | nil => intro _; simp [splitOnComma]
  | cons c cs ih =>
    intro h
    have hc : c ≠ ',' := by rintro rfl; exact h (List.mem_cons_self _ _)
    have hcs : ',' ∉ cs := fun m => h (List.mem_cons_of_mem _ m)
    simp only [List.cons_append, splitOnComma, if_neg hc]
    rw [List.append_eq, ih hcs]

theorem mem_splitOnComma_no_comma :
    ∀ (s c : List Char), c ∈ splitOnComma s → ',' ∉ c := by
  intro s
  induction s with
  | nil =>
    intro c hc
    simp [splitOnComma] at hc
    subst hc
    simp
  | cons d ds ih =>
    intro c hc
    by_cases hd : d = ','
    · rw [hd] at hc
      simp only [splitOnComma, if_pos rfl] at hc
      rcases List.mem_cons.mp hc with h | h
      · subst h; simp
      · exact ih c h
    · simp only [splitOnComma, if_neg hd] at hc
      cases hsp : splitOnComma ds with
      | nil => exact absurd hsp (splitOnComma_ne_nil ds)
      | cons r rs =>
        rw [hsp] at hc
        have hr : r ∈ splitOnComma ds := by
          rw [hsp]; exact List.mem_cons_self r rs
        rcases List.mem_cons.mp hc with h | h
        · subst h
          intro hm
          rcases List.mem_cons.mp hm with h2 | h2
          · exact hd h2.symm
          · exact ih r hr h2
        · exact ih c (by rw [hsp]; exact List.mem_cons_of_mem r h)

theorem new_coins_mem {s x : List Char} (hx : x ∈ new_coins s) :
    pyStrip x = x ∧ x ≠ [] ∧ ',' ∉ x := by
  rw [new_coins, List.mem_filter] at hx
  obtain ⟨hmem, hne⟩ := hx
  rw [List.mem_map] at hmem
  obtain ⟨c, hc, rfl⟩ := hmem
  refine ⟨pyStrip_idem c, by simpa using hne, ?_⟩
  intro hm
  exact mem_splitOnComma_no_comma s c hc (mem_pyStrip hm)

theorem new_coins_join : ∀ l : List (List Char),
    (∀ x ∈ l, pyStrip x = x ∧ x ≠ [] ∧ ',' ∉ x) →
    new_coins (joinCommaSpace l) = l
  | [], _ => rfl
  | [x], h => by
    have hx := h x (List.mem_cons_self x [])
    simp only [joinCommaSpace]
    rw [new_coins, splitOnComma_no_comma hx.2.2]
    simp [hx.1, hx.2.1]
  | x :: y :: xs, h => by
    have hx := h x (List.mem_cons_self _ _)
    have hrest : ∀ z ∈ y :: xs, pyStrip z = z ∧ z ≠ [] ∧ ',' ∉ z :=
      fun z hz => h z (List.mem_cons_of_mem _ hz)
    have ihr := new_coins_join (y :: xs) hrest
    rw [new_coins] at ihr ⊢
    simp only [joinCommaSpace]
    rw [splitOnComma_append _ _ hx.2.2]
    cases hsp : splitOnComma (joinCommaSpace (y :: xs)) with
    | nil => exact absurd hsp (splitOnComma_ne_nil _)
    | cons r rs =>
      rw [hsp] at ihr
      have hsp2 : splitOnComma (' ' :: joinCommaSpace (y :: xs))
          = (' ' :: r) :: rs := by
        simp only [splitOnComma, if_neg (by decide : ¬ (' ' = ','))]
        rw [hsp]
      rw [hsp2, List.map_cons, List.map_cons, hx.1, pyStrip_space_cons]
      simp only [List.map_cons] at ihr
      simp [hx.2.1]
      simpa using ihr

/-- C2: with fewer than 2 fetched equity logs no Period PnL metric is
rendered; with at least 2, the PnL is the current total value minus the
oldest (last, since the fetch is timestamp-descending) log's recorded
total value, and the percentage is 0 when that oldest value is 0 and
otherwise (current − oldest) / oldest × 100. -/
theorem period_pnl_spec :
    (∀ (tv : ℚ) (logs : List EquityLog), logs.length < 2 →
      period_pnl tv logs = none)
    ∧ (∀ (tv : ℚ) (logs : List EquityLog) (oldest : EquityLog) (v : ℚ),
        2 ≤ logs.length → logs.getLast? = some oldest →
        oldest.total_value = some v →
        period_pnl tv logs
          = some (tv - v, if v = 0 then 0 else (tv - v) / v * 100)) := by
  constructor
  · intro tv logs h
    have h1 : ¬ 1 < logs.length := by omega
    simp [period_pnl, h1]
  · intro tv logs oldest v hlen hlast hv
    have h1 : 1 < logs.length := by omega
    by_cases hv0 : v = 0
    · simp [period_pnl, h1, hlast, hv, hv0]
    · simp [period_pnl, h1, hlast, hv, hv0]

theorem period_pnl_spec_witness :
    period_pnl 120 [⟨some "2026-01-02", some 150⟩, ⟨some "2026-01-01", some 100⟩]
      = some (120 - 100, if (100 : ℚ) = 0 then 0 else (120 - 100) / 100 * 100) :=
  period_pnl_spec.2 120
    [⟨some "2026-01-02", some 150⟩, ⟨some "2026-01-01", some 100⟩]
    ⟨some "2026-01-01", some 100⟩ 100 (by decide) rfl rfl

/-- C3 counterexample: with both an environment value and a secrets
value present for the URL and the key, the client uses the environment
values, not the secrets-store values — the claimed secrets precedence is
false. -/
theorem secrets_precedence_counterexample :
    (resolveCredentials envBoth secretsBoth).url = some "https://env.example"
    ∧ (resolveCredentials envBoth secretsBoth).key = some "env-key"
    ∧ secretsBoth.get "COSMOS_DB_URL" = some "https://secrets.example"
    ∧ secretsBoth.get "COSMOS_DB_KEY" = some "secrets-key"
    ∧ (resolveCredentials envBoth secretsBoth).url
        ≠ some "https://secrets.example"
    ∧ (resolveCredentials envBoth secretsBoth).key ≠ some "secrets-key" := by
  decide

/-- C3 amended: for the database endpoint URL and the access key, a
truthy (present, non-empty) environment value takes precedence over the
secrets store; the secrets-store value is used only when the
environment value is absent or empty and the secrets store holds the
key. -/
theorem env_precedence (env : EnvVars) (secrets : Secrets) :
    (strFalsy env.cosmos_db_url = false →
      (resolveCredentials env secrets).url = env.cosmos_db_url)
    ∧ (strFalsy env.cosmos_db_url = true →
        secrets.holds "COSMOS_DB_URL" = true →
      (resolveCredentials env secrets).url = secrets.get "COSMOS_DB_URL")
    ∧ (strFalsy env.cosmos_db_key = false →
      (resolveCredentials env secrets).key = env.cosmos_db_key)
    ∧ (strFalsy env.cosmos_db_key = true →
        secrets.holds "COSMOS_DB_KEY" = true →
      (resolveCredentials env secrets).key = secrets.get "COSMOS_DB_KEY") := by
  refine ⟨?_, ?_, ?_, ?_⟩
  · intro h; simp [resolveCredentials, h]
  · intro h h2; simp [resolveCredentials, h, h2]
  · intro h; simp [resolveCredentials, h]
  · intro h h2; simp [resolveCredentials, h, h2]

theorem env_precedence_witness :
    (resolveCredentials envBoth secretsBoth).url = envBoth.cosmos_db_url
    ∧ (resolveCredentials envNeither secretsBoth).url
        = secretsBoth.get "COSMOS_DB_URL" :=
  ⟨(env_precedence envBoth secretsBoth).1 (by decide),
   (env_precedence envNeither secretsBoth).2.1 (by decide) (by decide)⟩

/-- C7: with no fetched equity logs the last-update metric renders
exactly "Unknown" and no Period PnL metric is rendered; with logs
present, the metric is the formatted timestamp of the first
(timestamp-descending, hence most recent) log. -/
theorem last_run_spec :
    (∀ fmt : String → String, last_run fmt [] = "Unknown")
    ∧ (∀ tv : ℚ, period_pnl tv [] = none)
    ∧ (∀ (fmt : String → String) (lg : EquityLog) (rest : List EquityLog)
        (ts : String), lg.timestamp = some ts → ts ≠ "" →
        last_run fmt (lg :: rest) = fmt ts) := by
  refine ⟨fun _ => rfl, fun _ => rfl, ?_⟩
  intro fmt lg rest ts hts hne
  simp [last_run, hts, hne]

theorem last_run_spec_witness :
    last_run (fun s => s) [⟨some "2026-01-01T00:00:00", some 100⟩]
      = (fun s : String => s) "2026-01-01T00:00:00" :=
  last_run_spec.2.2 (fun s => s) ⟨some "2026-01-01T00:00:00", some 100⟩ []
    "2026-01-01T00:00:00" rfl (by decide)

/-- C8: the force-buy candidate list is exactly the distinct coins of
the watchlist entries whose status is not "bought" (first occurrences,
no duplicates); in particular, with one "bought" and one "pending"
entry only the pending coin is offered. -/
theorem pending_coins_spec :
    pending_coins [wlBought, wlPending] = ["PEPE"]
    ∧ (∀ (wl : List WatchlistEntry) (x : String),
        x ∈ pending_coins wl
          ↔ ∃ e, e ∈ wl ∧ e.status ≠ "bought" ∧ e.coin = x)
    ∧ (∀ wl : List WatchlistEntry, (pending_coins wl).Nodup) := by
  refine ⟨by decide, ?_, ?_⟩
  · intro wl x
    rw [pending_coins, mem_uniqueAux]
    simp [List.mem_map, List.mem_filter, bne_iff_ne, and_assoc]
  · intro wl
    exact nodup_uniqueAux _ []

/-- C9: the force-buy handler requests a rerun only when the HTTP call
returned and its status code is 200; any non-200 status renders the
response text as an inline error with no rerun, and any transport
exception renders an inline failure message with no rerun. The handler
is a total function, so no outcome crashes the render. -/
theorem force_buy_spec :
    (∀ resp : Except String HttpResponse,
      (force_buy resp).rerun = true →
        ∃ r : HttpResponse, resp = .ok r ∧ r.status_code = 200)
    ∧ (∀ r : HttpResponse, r.status_code ≠ 200 →
        (force_buy (.ok r)).rerun = false
        ∧ (force_buy (.ok r)).error_msg = some ("Error: " ++ r.text))
    ∧ (∀ e : String,
        (force_buy (.error e)).rerun = false
        ∧ (force_buy (.error e)).error_msg
            = some ("Failed to call ForceBuy API: " ++ e
              ++ "\nEnsure Function App is running locally.")) := by
  refine ⟨?_, ?_, ?_⟩
  · intro resp h
    match resp with
    | .error e => simp [force_buy] at h
    | .ok r =>
      refine ⟨r, rfl, ?_⟩
      by_cases hs : r.status_code = 200
      · exact hs
      · simp [force_buy, hs] at h
  · intro r hs
    simp [force_buy, hs]
  · intro e
    simp [force_buy]

theorem force_buy_spec_witness :
    (force_buy (.ok resp500)).rerun = false
    ∧ (force_buy (.ok resp500)).error_msg = some ("Error: " ++ resp500.text) :=
  force_buy_spec.2.1 resp500 (by decide)

/-- C10: the document handed to `update_settings` on a form submit
agrees with the previously fetched settings document on every key other
than the five edited ones (TAKE_PROFIT, STOP_LOSS, ORDER_AMOUNT,
COINS_TO_TRACK, PROMPT_TEMPLATE); in particular the document id is
carried through unchanged. -/
theorem submit_settings_frame (d : SettingsDoc) (tp sl amount : ℚ)
    (coins_str prompt_template : List Char) (k : String)
    (hk : k ∉ (["TAKE_PROFIT", "STOP_LOSS", "ORDER_AMOUNT",
      "COINS_TO_TRACK", "PROMPT_TEMPLATE"] : List String)) :
    submit_settings d tp sl amount coins_str prompt_template k = d k := by
  simp only [List.mem_cons, List.not_mem_nil, or_false, not_or] at hk
  obtain ⟨h1, h2, h3, h4, h5⟩ := hk
  simp [submit_settings, setKey, h1, h2, h3, h4, h5]

theorem submit_settings_frame_witness :
    submit_settings docWithId 5 2 100 ("btc, eth".toList) ("buy low".toList) "id"
      = docWithId "id" :=
  submit_settings_frame docWithId 5 2 100 ("btc, eth".toList)
    ("buy low".toList) "id" (by decide)

/-- C5: parsing the comma-separated coin string trims whitespace from
each element and drops empty elements, so "btc, eth ,, sol" parses to
[btc, eth, sol] in order; the parse is idempotent under re-display:
joining the persisted list back with ", " and re-parsing it yields the
same list, and re-submitting the form with that re-displayed string
produces the identical persisted settings document. -/
theorem coins_roundtrip :
    new_coins ("btc, eth ,, sol".toList)
      = ["btc".toList, "eth".toList, "sol".toList]
    ∧ (∀ s : List Char,
        new_coins (joinCommaSpace (new_coins s)) = new_coins s)
    ∧ (∀ (d : SettingsDoc) (tp sl amount : ℚ) (pt s : List Char),
        submit_settings (submit_settings d tp sl amount s pt) tp sl amount
          (joinCommaSpace (new_coins s)) pt
        = submit_settings d tp sl amount s pt) := by
  refine ⟨by decide, ?_, ?_⟩
  · intro s
    exact new_coins_join (new_coins s) (fun x hx => new_coins_mem hx)
  · intro d tp sl amount pt s
    funext k
    have hc : new_coins (joinCommaSpace (new_coins s)) = new_coins s :=
      new_coins_join (new_coins s) (fun x hx => new_coins_mem hx)
    simp only [submit_settings, setKey, hc]
    split_ifs <;> rfl

end CryptoDashboard
